import Mathlib

/-!
Verification development for a collection of pandas-based data-analysis
utilities: header sanitisation, weekly aggregation helpers, a combinatorial
region-selection routine for geo-experiment power analysis, and a recursive
YAML/SQL directory loader.

The Python sources are embedded shallowly:

* strings are modelled as lists of Unicode codepoints (List Nat) where
  character-level transformations matter, and as Lean String elsewhere;
* dates are modelled as Int values counting days since 1970-01-01, which was
  a Thursday, so the pandas weekday of day d (Monday = 0) is (d + 3) % 7;
* dataframes are modelled as association lists from column names to column
  value lists; a function that mutates its input dataframe is modelled as
  returning the pair (state of the caller dataframe after the call, returned
  value or raised error);
* Python exceptions are modelled with the Except monad and the PyErr type;
* the numeric content of the region-selection routine (Python floats) is
  modelled with exact rationals, which preserves all the control flow the
  claims are about.
-/

/-- Python exceptions that the modelled code can raise. -/
inductive PyErr where
  | valueError (msg : String)
  | keyError (msg : String)
  | attributeError
  | unboundLocalError
  | isADirectoryError
  | loadError
deriving DecidableEq

/-! ## pandas_utils.sanitise_header

Source: src/studies/demo/pandas_utils.py, lines 8-39.  Column names are
modelled as lists of Unicode codepoints.  Python str.lower is modelled
per character on the ASCII range (65..90 map to 97..122), which is exact
for the column names the code is written for. -/

/-- Codepoint-level model of Python str.lower restricted to ASCII letters. -/
def py_lower (c : Nat) : Nat := if 65 ≤ c ∧ c ≤ 90 then c + 32 else c

/-- Codepoints removed by the translation table built at pandas_utils.py:24,
from the character list at line 21: . , dollar percent caret ampersand pound
at hash ( ) [ ] closing-brace opening-brace question-mark. -/
def char_remove : List Nat := [46, 44, 36, 37, 94, 38, 163, 64, 35, 40, 41, 91, 93, 125, 123, 63]

/-- The translation table of pandas_utils.py:24-26: hyphen (45) and space (32)
become underscore (95), codepoints in char_remove are deleted, and every other
codepoint maps to itself. -/
def translate_char (c : Nat) : Option Nat :=
  if c = 45 ∨ c = 32 then some 95
  else if c ∈ char_remove then none
  else some c

/-- Model of Python str.split with separator underscore (95): splits a
codepoint list into the (possibly empty) chunks between underscores. -/
def splitU : List Nat → List (List Nat)
  | [] => [[]]
  | c :: cs =>
    if c = 95 then [] :: splitU cs
    else
      match splitU cs with
      | [] => [[c]]
      | p :: ps => (c :: p) :: ps

/-- Model of Python underscore.join: joins chunks with a single underscore. -/
def joinP : List (List Nat) → List Nat
  | [] => []
  | [p] => p
  | p :: ps => p ++ 95 :: joinP ps

/-- The per-column transformation of sanitise_header (pandas_utils.py:29-34):
lowercase, apply the translation table, then drop empty chunks between
underscores and re-join, removing leading/trailing/repeated underscores. -/
def sanitiseName (s : List Nat) : List Nat :=
  joinP ((splitU ((s.map py_lower).filterMap translate_char)).filter (fun p => !p.isEmpty))

/-- Model of sanitise_header (pandas_utils.py:8-39).  The dataframe state is
its list of column names.  The function computes the new names, raises
ValueError if they collide (the length of the deduplicated list is compared
with the full length, mirroring len(set(columns_new)) < len(columns_new) at
line 36), and only then assigns df.columns.  The returned pair is
(column names of the caller dataframe after the call, result). -/
def sanitise_header (cols : List (List Nat)) : List (List Nat) × Except PyErr Unit :=
  let columns_new := cols.map sanitiseName
  if columns_new.dedup.length < columns_new.length then
    (cols, Except.error (PyErr.valueError "columns with same name found."))
  else
    (columns_new, Except.ok ())

theorem py_lower_idem (c : Nat) : py_lower (py_lower c) = py_lower c := by
  unfold py_lower
  split_ifs <;> omega

theorem translate_char_underscore : translate_char 95 = some 95 := by decide

theorem py_lower_underscore : py_lower 95 = 95 := by decide

/-- Every codepoint surviving the lower-then-translate stage is itself fixed
by py_lower and by translate_char. -/
theorem mem_translate_fixed (l : List Nat) (c : Nat)
    (h : c ∈ (l.map py_lower).filterMap translate_char) :
    py_lower c = c ∧ translate_char c = some c := by
  rcases List.mem_filterMap.mp h with ⟨d, hd, hdc⟩
  rcases List.mem_map.mp hd with ⟨e, _, hde⟩
  subst hde
  unfold translate_char at hdc
  split_ifs at hdc with h1 h2
  · rw [Option.some.injEq] at hdc
    subst hdc
    exact ⟨py_lower_underscore, translate_char_underscore⟩
  · rw [Option.some.injEq] at hdc
    subst hdc
    refine ⟨py_lower_idem e, ?_⟩
    unfold translate_char
    rw [if_neg h1, if_neg h2]

theorem splitU_ne_nil (l : List Nat) : splitU l ≠ [] := by
  induction l with
  | nil => simp [splitU]
  | cons c cs ih =>
    simp only [splitU]
    split_ifs
    · simp
    · rcases hcs : splitU cs with _ | ⟨p, ps⟩ <;> simp

theorem splitU_cons_of_ne (c : Nat) (cs p : List Nat) (ps : List (List Nat))
    (hc : ¬c = 95) (h : splitU cs = p :: ps) :
    splitU (c :: cs) = (c :: p) :: ps := by
  simp only [splitU]
  rw [if_neg hc, h]

/-- Chunks produced by splitU contain no underscore. -/
theorem splitU_no_underscore (l : List Nat) :
    ∀ p ∈ splitU l, 95 ∉ p := by
  induction l with
  | nil => intro p hp; simp [splitU] at hp; simp [hp]
  | cons c cs ih =>
    intro p hp
    by_cases hc : c = 95
    · subst hc
      simp only [splitU, if_pos rfl] at hp
      rcases List.mem_cons.mp hp with hp | hp
      · simp [hp]
      · exact ih p hp
    · rcases hcs : splitU cs with _ | ⟨q, qs⟩
      · exact absurd hcs (splitU_ne_nil cs)
      · rw [splitU_cons_of_ne c cs q qs hc hcs] at hp
        rcases List.mem_cons.mp hp with hp | hp
        · subst hp
          intro hmem
          rcases List.mem_cons.mp hmem with hmem | hmem
          · exact hc hmem.symm
          · exact ih q (by rw [hcs]; exact List.mem_cons_self q qs) hmem
        · exact ih p (by rw [hcs]; exact List.mem_cons_of_mem q hp)

/-- Every codepoint of a chunk of splitU l is a codepoint of l. -/
theorem splitU_subset (l : List Nat) :
    ∀ p ∈ splitU l, ∀ c ∈ p, c ∈ l := by
  induction l with
  | nil => intro p hp; simp [splitU] at hp; simp [hp]
  | cons c cs ih =>
    intro p hp d hd
    by_cases hc : c = 95
    · subst hc
      simp only [splitU, if_pos rfl] at hp
      rcases List.mem_cons.mp hp with hp | hp
      · subst hp; cases hd
      · exact List.mem_cons_of_mem _ (ih p hp d hd)
    · rcases hcs : splitU cs with _ | ⟨q, qs⟩
      · exact absurd hcs (splitU_ne_nil cs)
      · rw [splitU_cons_of_ne c cs q qs hc hcs] at hp
        rcases List.mem_cons.mp hp with hp | hp
        · subst hp
          rcases List.mem_cons.mp hd with hd | hd
          · simp [hd]
          · exact List.mem_cons_of_mem _
              (ih q (by rw [hcs]; exact List.mem_cons_self q qs) d hd)
        · exact List.mem_cons_of_mem _
            (ih p (by rw [hcs]; exact List.mem_cons_of_mem q hp) d hd)

theorem splitU_of_no_underscore : (p : List Nat) → 95 ∉ p → splitU p = [p]
  | [], _ => by simp [splitU]
  | c :: cs, hp => by
    have hc : ¬c = 95 := fun h => hp (h ▸ List.mem_cons_self c cs)
    have hcs : splitU cs = [cs] :=
      splitU_of_no_underscore cs (fun h => hp (List.mem_cons_of_mem c h))
    exact splitU_cons_of_ne c cs cs [] hc hcs

theorem splitU_append_underscore (t : List Nat) :
    (p : List Nat) → 95 ∉ p → splitU (p ++ 95 :: t) = p :: splitU t
  | [], _ => by simp [splitU]
  | c :: cs, hp => by
    have hc : ¬c = 95 := fun h => hp (h ▸ List.mem_cons_self c cs)
    have hcs := splitU_append_underscore t cs (fun h => hp (List.mem_cons_of_mem c h))
    exact splitU_cons_of_ne c (cs ++ 95 :: t) cs (splitU t) hc hcs

/-- Splitting the underscore-join of nonempty underscore-free chunks gives the
chunks back. -/
theorem splitU_joinP (ps : List (List Nat)) (hne : ps ≠ [])
    (hok : ∀ p ∈ ps, p ≠ [] ∧ 95 ∉ p) :
    splitU (joinP ps) = ps := by
  induction ps with
  | nil => exact absurd rfl hne
  | cons p qs ih =>
    rcases qs with _ | ⟨q, rs⟩
    · simp only [joinP]
      exact splitU_of_no_underscore p (hok p (List.mem_cons_self p [])).2
    · have hjoin : joinP (p :: q :: rs) = p ++ 95 :: joinP (q :: rs) := rfl
      rw [hjoin, splitU_append_underscore (joinP (q :: rs)) p (hok p (List.mem_cons_self p _)).2]
      rw [ih (by simp) (fun r hr => hok r (List.mem_cons_of_mem p hr))]

/-- Every codepoint of an underscore-join is the underscore or a codepoint of
one of the chunks. -/
theorem mem_joinP (ps : List (List Nat)) (c : Nat) (h : c ∈ joinP ps) :
    c = 95 ∨ ∃ p ∈ ps, c ∈ p := by
  induction ps with
  | nil => cases h
  | cons p qs ih =>
    rcases qs with _ | ⟨q, rs⟩
    · exact Or.inr ⟨p, List.mem_cons_self p [], h⟩
    · have hjoin : joinP (p :: q :: rs) = p ++ 95 :: joinP (q :: rs) := rfl
      rw [hjoin] at h
      rcases List.mem_append.mp h with h | h
      · exact Or.inr ⟨p, List.mem_cons_self p _, h⟩
      · rcases List.mem_cons.mp h with h | h
        · exact Or.inl h
        · rcases ih h with h | ⟨r, hr, hcr⟩
          · exact Or.inl h
          · exact Or.inr ⟨r, List.mem_cons_of_mem p hr, hcr⟩

theorem map_fixed_eq_self {α : Type} (l : List α) (f : α → α) (h : ∀ a ∈ l, f a = a) :
    l.map f = l := by
  induction l with
  | nil => rfl
  | cons a t ih =>
    simp only [List.map_cons, h a (List.mem_cons_self a t),
      ih (fun b hb => h b (List.mem_cons_of_mem a hb))]

theorem filterMap_fixed_eq_self (l : List Nat) (f : Nat → Option Nat)
    (h : ∀ a ∈ l, f a = some a) : l.filterMap f = l := by
  induction l with
  | nil => rfl
  | cons a t ih =>
    rw [List.filterMap_cons, h a (List.mem_cons_self a t),
      ih (fun b hb => h b (List.mem_cons_of_mem a hb))]

/-- sanitiseName is idempotent: sanitising an already-sanitised column name is
the identity. -/
theorem sanitiseName_idem (s : List Nat) :
    sanitiseName (sanitiseName s) = sanitiseName s := by
  unfold sanitiseName
  set X := (s.map py_lower).filterMap translate_char with hX
  set parts := (splitU X).filter (fun p => !p.isEmpty) with hparts
  have hparts_ne_nil : ∀ p ∈ parts, p ≠ [] := by
    intro p hp
    have := List.of_mem_filter hp
    simpa using this
  have hparts_no95 : ∀ p ∈ parts, 95 ∉ p :=
    fun p hp => splitU_no_underscore X p (List.mem_of_mem_filter hp)
  have hchars : ∀ c ∈ joinP parts, py_lower c = c ∧ translate_char c = some c := by
    intro c hc
    rcases mem_joinP parts c hc with hc95 | ⟨p, hp, hcp⟩
    · subst hc95
      exact ⟨py_lower_underscore, translate_char_underscore⟩
    · exact mem_translate_fixed s c
        (splitU_subset X p (List.mem_of_mem_filter hp) c hcp)
  have hmap : (joinP parts).map py_lower = joinP parts :=
    map_fixed_eq_self _ _ (fun a ha => (hchars a ha).1)
  have hfm : ((joinP parts).map py_lower).filterMap translate_char = joinP parts := by
    rw [hmap]
    exact filterMap_fixed_eq_self _ _ (fun a ha => (hchars a ha).2)
  rw [hfm]
  rcases hps : parts with _ | ⟨p, qs⟩
  · simp [joinP, splitU]
  · rw [← hps]
    rw [splitU_joinP parts (by rw [hps]; simp)
      (fun p hp => ⟨hparts_ne_nil p hp, hparts_no95 p hp⟩)]
    rw [List.filter_eq_self.mpr]
    intro a ha
    simpa using hparts_ne_nil a ha

/-! ## pandas_utils date helpers and aggregate_weekly

Source: src/studies/demo/pandas_utils.py, lines 128-211.  A dataframe is an
association list from column names to lists of Int cell values; the date
column holds days since 1970-01-01 (a Thursday). -/

/-- Model of a pandas dataframe: column names with their cell lists. -/
abbrev DF : Type := List (String × List Int)

/-- First column with the given name, mirroring pandas column access. -/
def findCol (n : String) : DF → Option (List Int)
  | [] => none
  | (m, v) :: rest => if m = n then some v else findCol n rest

/-- Model of df[name] = values: overwrite the column in place if the name
exists, else append a new column at the end, as pandas does. -/
def setCol (n : String) (v : List Int) : DF → DF
  | [] => [(n, v)]
  | (m, w) :: rest => if m = n then (n, v) :: rest else (m, w) :: setCol n v rest

/-- Model of df.drop(columns=ns) restricted to the use at pandas_utils.py:200,
where both dropped columns are present. -/
def dropCols (ns : List String) (df : DF) : DF :=
  df.filter (fun p => !ns.contains p.1)

/-- Keep the cells of a column whose row is selected by the Boolean mask. -/
def selectMask (mask : List Bool) (v : List Int) : List Int :=
  (v.zip mask).filterMap (fun p => if p.2 then some p.1 else none)

/-- Model of boolean-mask row filtering df[mask], applied columnwise. -/
def filterRowsMask (mask : List Bool) (df : DF) : DF :=
  df.map (fun p => (p.1, selectMask mask p.2))

/-- Insertion into a sorted list of Int, ascending. -/
def insertSorted (x : Int) : List Int → List Int
  | [] => [x]
  | y :: ys => if x ≤ y then x :: y :: ys else y :: insertSorted x ys

/-- Insertion sort, modelling the ascending key order of pandas groupby. -/
def sortInts (l : List Int) : List Int := l.foldr insertSorted []

/-- Model of check_all_dates (pandas_utils.py:128-155) with the date series
given as Int days.  pandas cannot take max/min of an empty series, so the
empty series is modelled as the missing-dates error. -/
def check_all_dates (series_of_dates : List Int) (freq : Nat) (check_duplicates : Bool) :
    Except PyErr Unit :=
  match series_of_dates with
  | [] => Except.error (PyErr.valueError "Missing dates in series!")
  | d :: ds =>
    let maxD := ds.foldr max d
    let minD := ds.foldr min d
    let n_days_diff := maxD - minD
    if ¬(n_days_diff % (freq : Int) = 0) then
      Except.error (PyErr.valueError "First and last datetime in series do not match expected frequency!")
    else
      let n_dates_expected := n_days_diff / (freq : Int) + 1
      if ((series_of_dates.dedup.length : Int) < n_dates_expected) then
        Except.error (PyErr.valueError "Missing dates in series!")
      else if check_duplicates ∧ ((series_of_dates.length : Int) > n_dates_expected) then
        Except.error (PyErr.valueError "Duplicate dates in series!")
      else Except.ok ()

/-- pandas Series.dt.weekday for day d since 1970-01-01: Monday is 0 and
1970-01-01 was a Thursday (weekday 3). -/
def week_day (d : Int) : Int := (d + 3) % 7

/-- The start of the week of day d, as computed by get_week_starts
(pandas_utils.py:158-163): d minus (weekday mod 7) days. -/
def week_start (d : Int) : Int := d - (week_day d) % 7

/-- Model of get_week_starts (pandas_utils.py:158-163): rejects any
day_week_starts other than Monday, then maps every date to its week start. -/
def get_week_starts (s : List Int) (day_week_starts : String) : Except PyErr (List Int) :=
  if ¬(day_week_starts = "Monday") then
    Except.error (PyErr.valueError "Only accepts day_week_starts = Monday.")
  else
    Except.ok (s.map week_start)

/-- Model of the dict form of pandas groupby(key).agg used by
aggregate_weekly (pandas_utils.py:203): group keys are the sorted distinct
values of the key column; each aggregation column must exist and must not be
the groupby key (pandas raises KeyError otherwise); each output cell applies
the aggregation function to the column cells of the key group.  reset_index
places the key as the first output column. -/
def aggDict (key : String) (spec : List (String × (List Int → Int))) (df : DF) :
    Except PyErr DF :=
  let kv := (findCol key df).getD []
  let keys := sortInts kv.dedup
  if spec.any (fun p => p.1 = key || (findCol p.1 df).isNone) then
    Except.error (PyErr.keyError "aggregation column not found")
  else
    Except.ok ((key, keys) ::
      spec.map (fun p =>
        (p.1, keys.map (fun k =>
          p.2 (selectMask (kv.map (fun x => x == k)) ((findCol p.1 df).getD []))))))

/-- Model of aggregate_weekly (pandas_utils.py:166-211).  The aggregation
functions are given as a pandas dict-style spec.  The first component of the
result is the caller dataframe after the call (the function mutates its input
at lines 196-197 by assigning the two helper columns before rebinding the
local name df); the second component is the returned dataframe or the raised
error.  Steps, in source order: column access df[col_date]; check_all_dates;
assignment of the week-start column; assignment of the days-per-week column
(groupby transform count of the date column, i.e. the size of the row week
group); unconditional filtering to rows whose week has 7 days; optional drop
of the original date and count columns; groupby-aggregate on the week starts;
rename of the week-start column to col_date (pandas df[col] on a duplicated
name yields a DataFrame whose .dt access raises AttributeError); final check
that every returned date is a Monday. -/
def aggregate_weekly (df : DF) (col_date : String)
    (aggregration_functions : List (String × (List Int → Int)))
    (day_week_starts : String) (drop_incomplete_weeks : Bool) :
    DF × Except PyErr DF :=
  match findCol col_date df with
  | none => (df, Except.error (PyErr.keyError col_date))
  | some dates =>
    match check_all_dates dates 1 true with
    | Except.error e => (df, Except.error e)
    | Except.ok _ =>
      let col_wk_starts := "__" ++ col_date ++ "__wk_starts"
      let col_days_in_wk := "__" ++ col_date ++ "__days_wk"
      match get_week_starts dates day_week_starts with
      | Except.error e => (df, Except.error e)
      | Except.ok ws =>
        let df1 := setCol col_wk_starts ws df
        let counts : List Int := ws.map (fun w => (ws.count w : Int))
        let df2 := setCol col_days_in_wk counts df1
        let mask := counts.map (fun c => c == 7)
        let df3 := filterRowsMask mask df2
        let df4 := if drop_incomplete_weeks then dropCols [col_date, col_days_in_wk] df3 else df3
        match aggDict col_wk_starts aggregration_functions df4 with
        | Except.error e => (df2, Except.error e)
        | Except.ok out0 =>
          let out := out0.map (fun p => (if p.1 = col_wk_starts then col_date else p.1, p.2))
          if 2 ≤ (out.map Prod.fst).count col_date then
            (df2, Except.error PyErr.attributeError)
          else
            let ds := (findCol col_date out).getD []
            if !ds.isEmpty && ds.all (fun d => week_day d == 0) then
              (df2, Except.ok out)
            else
              (df2, Except.error (PyErr.valueError "Some weeks do not start on Monday"))

/-- The sorted distinct week starts of the complete weeks (weeks with exactly
7 daily rows) of the date column of df.  This is the date content that
aggregate_weekly returns, and it does not depend on drop_incomplete_weeks. -/
def completeWeekStarts (df : DF) (col_date : String) : List Int :=
  let dates := (findCol col_date df).getD []
  let ws := dates.map week_start
  let counts : List Int := ws.map (fun w => (ws.count w : Int))
  sortInts ((selectMask (counts.map (fun c => c == 7)) ws).dedup)

theorem week_day_week_start (d : Int) : week_day (week_start d) = 0 := by
  simp only [week_start, week_day]
  omega

theorem findCol_setCol_self (n : String) (v : List Int) (df : DF) :
    findCol n (setCol n v df) = some v := by
  induction df with
  | nil => simp [setCol, findCol]
  | cons p rest ih =>
    obtain ⟨m, w⟩ := p
    by_cases hm : m = n
    · simp [setCol, findCol, hm]
    · simp [setCol, findCol, hm, ih]

theorem findCol_setCol_ne (m n : String) (v : List Int) (df : DF) (hmn : ¬m = n) :
    findCol m (setCol n v df) = findCol m df := by
  have hnm : ¬n = m := fun h => hmn h.symm
  induction df with
  | nil => simp [setCol, findCol, hnm]
  | cons p rest ih =>
    obtain ⟨k, w⟩ := p
    by_cases hk : k = n
    · subst hk
      simp [setCol, findCol, hnm, ih]
    · by_cases hkm : k = m <;> simp [setCol, findCol, hk, hkm, hmn, hnm, ih]

theorem setCol_fresh (n : String) (v : List Int) (df : DF)
    (h : findCol n df = none) : setCol n v df = df ++ [(n, v)] := by
  induction df with
  | nil => rfl
  | cons p rest ih =>
    obtain ⟨m, w⟩ := p
    by_cases hm : m = n
    · rw [findCol, if_pos hm] at h
      simp at h
    · rw [findCol, if_neg hm] at h
      simp [setCol, hm, ih h]

theorem findCol_dropCols (n : String) (ns : List String) (df : DF)
    (h : ¬n ∈ ns) : findCol n (dropCols ns df) = findCol n df := by
  induction df with
  | nil => rfl
  | cons p rest ih =>
    obtain ⟨m, w⟩ := p
    rw [dropCols, List.filter_cons]
    by_cases hc : m ∈ ns
    · have hmn : ¬m = n := fun he => h (he ▸ hc)
      have hb : (!(ns.contains m)) = false := by simp [hc]
      rw [hb]
      simp only [Bool.false_eq_true, if_false]
      rw [findCol, if_neg hmn]
      exact ih
    · have hb : (!(ns.contains m)) = true := by simp [hc]
      rw [hb]
      simp only [if_true]
      rw [findCol, findCol]
      by_cases hm : m = n
      · rw [if_pos hm, if_pos hm]
      · rw [if_neg hm, if_neg hm]
        exact ih

theorem findCol_filterRowsMask (n : String) (mask : List Bool) (df : DF) :
    findCol n (filterRowsMask mask df) = (findCol n df).map (selectMask mask) := by
  induction df with
  | nil => rfl
  | cons p rest ih =>
    obtain ⟨m, w⟩ := p
    by_cases hm : m = n
    · simp [filterRowsMask, findCol, hm]
    · simp only [filterRowsMask, List.map_cons, findCol, if_neg hm]
      simpa [filterRowsMask] using ih

theorem wk_col_length (c : String) : ("__" ++ c ++ "__wk_starts").length = c.length + 13 := by
  have h2 : ("__" : String).length = 2 := rfl
  have h11 : ("__wk_starts" : String).length = 11 := rfl
  show (("__" ++ c) ++ "__wk_starts").length = c.length + 13
  rw [String.length_append, String.length_append, h2, h11]
  omega

theorem days_col_length (c : String) : ("__" ++ c ++ "__days_wk").length = c.length + 11 := by
  have h2 : ("__" : String).length = 2 := rfl
  have h9 : ("__days_wk" : String).length = 9 := rfl
  show (("__" ++ c) ++ "__days_wk").length = c.length + 11
  rw [String.length_append, String.length_append, h2, h9]
  omega

theorem wk_col_ne_col (c : String) : ¬("__" ++ c ++ "__wk_starts") = c := by
  intro h
  have := congrArg String.length h
  rw [wk_col_length] at this
  omega

theorem days_col_ne_col (c : String) : ¬("__" ++ c ++ "__days_wk") = c := by
  intro h
  have := congrArg String.length h
  rw [days_col_length] at this
  omega

theorem days_col_ne_wk_col (c : String) :
    ¬("__" ++ c ++ "__days_wk") = ("__" ++ c ++ "__wk_starts") := by
  intro h
  have := congrArg String.length h
  rw [days_col_length, wk_col_length] at this
  omega

/-- C5: for every input dataframe accepted by aggregate_weekly with
day_week_starts Monday (i.e. for which it returns without raising), every
date in the col_date column of the returned dataframe is a Monday. -/
theorem C5_weekly_monday (df : DF) (col_date : String)
    (spec : List (String × (List Int → Int))) (b : Bool) (s out : DF)
    (h : aggregate_weekly df col_date spec "Monday" b = (s, Except.ok out)) :
    ((findCol col_date out).getD []).all (fun d => week_day d == 0) = true := by
  simp only [aggregate_weekly] at h
  split at h
  · simp at h
  split at h
  · simp at h
  split at h
  · simp at h
  split at h
  · simp at h
  split at h
  · simp at h
  split at h
  case isTrue hcond =>
    rw [Prod.mk.injEq] at h
    obtain ⟨hs, hout⟩ := h
    rw [Except.ok.injEq] at hout
    subst hout
    exact (Bool.and_eq_true_iff.mp hcond).2
  case isFalse => simp at h

instance instDecEqExcept {ε α : Type} [DecidableEq ε] [DecidableEq α] :
    DecidableEq (Except ε α) := fun a b =>
  match a, b with
  | Except.ok x, Except.ok y =>
    match decEq x y with
    | isTrue h => isTrue (h ▸ rfl)
    | isFalse h => isFalse (fun he => h (by cases he; rfl))
  | Except.error x, Except.error y =>
    match decEq x y with
    | isTrue h => isTrue (h ▸ rfl)
    | isFalse h => isFalse (fun he => h (by cases he; rfl))
  | Except.ok _, Except.error _ => isFalse (fun he => by cases he)
  | Except.error _, Except.ok _ => isFalse (fun he => by cases he)

/-- Summation aggregation function used in concrete examples, modelling the
pandas sum aggregator. -/
def sumAgg (l : List Int) : Int := l.foldr (fun a b => a + b) 0

/-- One full week of daily data: days 4..10 since epoch, i.e. Monday
1970-01-05 through Sunday 1970-01-11, with a value column. -/
def dfWeekFull : DF :=
  [("d", [4, 5, 6, 7, 8, 9, 10]), ("v", [1, 1, 1, 1, 1, 1, 1])]

/-- Witness for C5: on a concrete full week the aggregation returns
dataframe [(d, [4]), (v, [7])] and day 4 (1970-01-05) is a Monday. -/
theorem C5_weekly_monday_witness :
    ((findCol "d" [("d", [4]), ("v", [7])]).getD []).all (fun d => week_day d == 0) = true :=
  C5_weekly_monday dfWeekFull "d" [("v", sumAgg)] true
    [("d", [4, 5, 6, 7, 8, 9, 10]), ("v", [1, 1, 1, 1, 1, 1, 1]),
     ("__d__wk_starts", [4, 4, 4, 4, 4, 4, 4]), ("__d__days_wk", [7, 7, 7, 7, 7, 7, 7])]
    [("d", [4]), ("v", [7])] (by decide)

theorem findCol_cons_self (n : String) (v : List Int) (rest : DF) :
    findCol n ((n, v) :: rest) = some v := by
  simp [findCol]

theorem map_congr_mem {α β : Type} (l : List α) (f g : α → β)
    (h : ∀ a ∈ l, f a = g a) : l.map f = l.map g := by
  induction l with
  | nil => rfl
  | cons a t ih =>
    simp only [List.map_cons, h a (List.mem_cons_self a t),
      ih (fun b hb => h b (List.mem_cons_of_mem a hb))]

/-- The week-start column survives the row filtering of aggregate_weekly:
looking it up in the filtered frame yields the masked week starts. -/
theorem findCol_wk_chain_keep (col_date : String) (ws counts : List Int)
    (mask : List Bool) (df : DF) :
    findCol ("__" ++ col_date ++ "__wk_starts")
      (filterRowsMask mask (setCol ("__" ++ col_date ++ "__days_wk") counts
        (setCol ("__" ++ col_date ++ "__wk_starts") ws df))) =
      some (selectMask mask ws) := by
  have hbase : findCol ("__" ++ col_date ++ "__wk_starts")
      (setCol ("__" ++ col_date ++ "__days_wk") counts
        (setCol ("__" ++ col_date ++ "__wk_starts") ws df)) = some ws := by
    rw [findCol_setCol_ne _ _ _ _ (fun he => days_col_ne_wk_col col_date he.symm)]
    exact findCol_setCol_self _ _ _
  rw [findCol_filterRowsMask, hbase]
  rfl

/-- The week-start column also survives the optional drop of the original
date and count columns. -/
theorem findCol_wk_chain_drop (col_date : String) (ws counts : List Int)
    (mask : List Bool) (df : DF) :
    findCol ("__" ++ col_date ++ "__wk_starts")
      (dropCols [col_date, "__" ++ col_date ++ "__days_wk"]
        (filterRowsMask mask (setCol ("__" ++ col_date ++ "__days_wk") counts
          (setCol ("__" ++ col_date ++ "__wk_starts") ws df)))) =
      some (selectMask mask ws) := by
  rw [findCol_dropCols]
  · exact findCol_wk_chain_keep col_date ws counts mask df
  · intro hmem
    rcases List.mem_cons.mp hmem with hmem | hmem
    · exact wk_col_ne_col col_date hmem
    · rcases List.mem_cons.mp hmem with hmem | hmem
      · exact days_col_ne_wk_col col_date hmem.symm
      · cases hmem

/-- C8: aggregate_weekly always discards rows of incomplete weeks before
aggregating, for every value of drop_incomplete_weeks: whenever it returns,
the col_date column of the result is exactly the sorted distinct week starts
of the weeks with 7 daily rows, an expression that does not mention the flag.
The flag only controls whether the helper columns are dropped from the
intermediate frame. -/
theorem C8_incomplete_weeks_always_dropped (df : DF) (col_date : String)
    (spec : List (String × (List Int → Int))) (b : Bool) (s out : DF)
    (h : aggregate_weekly df col_date spec "Monday" b = (s, Except.ok out)) :
    (findCol col_date out).getD [] = completeWeekStarts df col_date := by
  simp only [aggregate_weekly] at h
  split at h
  · simp at h
  rename_i dates hdates
  split at h
  · simp at h
  split at h
  · simp at h
  rename_i ws hws
  split at h
  · simp at h
  rename_i out0 hagg
  split at h
  · simp at h
  split at h
  case isFalse => simp at h
  case isTrue hcond =>
    rw [Prod.mk.injEq] at h
    obtain ⟨hs, hout⟩ := h
    rw [Except.ok.injEq] at hout
    subst hout
    simp only [get_week_starts] at hws
    rw [if_neg (by simp)] at hws
    rw [Except.ok.injEq] at hws
    subst hws
    simp only [aggDict] at hagg
    split at hagg
    case isTrue hb =>
      split at hagg
      · simp at hagg
      rw [Except.ok.injEq] at hagg
      subst hagg
      simp only [List.map_cons, eq_self_iff_true, if_true]
      rw [findCol_cons_self, Option.getD_some]
      rw [findCol_wk_chain_drop, Option.getD_some]
      simp only [completeWeekStarts, hdates, Option.getD_some]
    case isFalse hb =>
      split at hagg
      · simp at hagg
      rw [Except.ok.injEq] at hagg
      subst hagg
      simp only [List.map_cons, eq_self_iff_true, if_true]
      rw [findCol_cons_self, Option.getD_some]
      rw [findCol_wk_chain_keep, Option.getD_some]
      simp only [completeWeekStarts, hdates, Option.getD_some]

/-- A full week (days 4..10) followed by one extra day 11 that belongs to an
incomplete week, with a value column. -/
def dfWeekPlusOne : DF :=
  [("d", [4, 5, 6, 7, 8, 9, 10, 11]), ("v", [1, 1, 1, 1, 1, 1, 1, 1])]

/-- Witness for C8 at drop_incomplete_weeks = false: the returned dates are
exactly the complete week start [4]; the incomplete week of day 11 is
discarded even though the flag is false. -/
theorem C8_incomplete_weeks_always_dropped_witness :
    (findCol "d" [("d", [4]), ("v", [7])]).getD [] = completeWeekStarts dfWeekPlusOne "d" :=
  C8_incomplete_weeks_always_dropped dfWeekPlusOne "d" [("v", sumAgg)] false
    [("d", [4, 5, 6, 7, 8, 9, 10, 11]), ("v", [1, 1, 1, 1, 1, 1, 1, 1]),
     ("__d__wk_starts", [4, 4, 4, 4, 4, 4, 4, 11]),
     ("__d__days_wk", [7, 7, 7, 7, 7, 7, 7, 1])]
    [("d", [4]), ("v", [7])] (by decide)

/-- The caller dataframe after a call to aggregate_weekly that passes the
initial date validation: the two helper columns have been assigned on it,
in source order (pandas_utils.py:196-197), whatever the later outcome. -/
theorem aggregate_weekly_state (df : DF) (col_date : String)
    (spec : List (String × (List Int → Int))) (b : Bool) (dates : List Int)
    (hdates : findCol col_date df = some dates)
    (hcheck : check_all_dates dates 1 true = Except.ok ()) :
    (aggregate_weekly df col_date spec "Monday" b).1 =
      setCol ("__" ++ col_date ++ "__days_wk")
        ((dates.map week_start).map (fun w => ((dates.map week_start).count w : Int)))
        (setCol ("__" ++ col_date ++ "__wk_starts") (dates.map week_start) df) := by
  simp only [aggregate_weekly, hdates, hcheck, get_week_starts]
  rw [if_neg (by simp)]
  split
  · rename_i e heq
    cases heq
  · rename_i ws hws
    rw [Except.ok.injEq] at hws
    subst hws
    split
    · rfl
    · split
      · rfl
      · split
        · rfl
        · rfl

/-- C10 counterexample input: the input dataframe already contains a column
named like the week-start helper column.  Day 5 is Tuesday 1970-01-06, whose
week start is day 4. -/
def dfOverwrite : DF := [("d", [5]), ("__d__wk_starts", [5]), ("v", [9])]

/-- C10 counterexample: on dfOverwrite, which passes the initial date
validation, the call overwrites the pre-existing column __d__wk_starts
(its cells change from [5] to [4]) instead of leaving every pre-existing
column unchanged, and the caller frame gains only one new column
(3 columns before, 4 after), not two. -/
theorem C10_overwrite_counterexample :
    ¬ findCol "__d__wk_starts"
        (aggregate_weekly dfOverwrite "d" [("v", sumAgg)] "Monday" true).1 =
      findCol "__d__wk_starts" dfOverwrite ∧
    (aggregate_weekly dfOverwrite "d" [("v", sumAgg)] "Monday" true).1.length =
      dfOverwrite.length + 1 := by
  decide

/-- C10 as amended: if the input passes the initial date validation and the
two helper column names are not already columns of the input, then the
caller dataframe after the call is exactly the input with the two helper
columns appended at the end: it gains the week-start column and the
days-per-week column as a side effect and every pre-existing column is left
unchanged. -/
theorem C10_mutation_adds_helper_columns (df : DF) (col_date : String)
    (spec : List (String × (List Int → Int))) (b : Bool) (dates : List Int)
    (hdates : findCol col_date df = some dates)
    (hcheck : check_all_dates dates 1 true = Except.ok ())
    (hwk : findCol ("__" ++ col_date ++ "__wk_starts") df = none)
    (hdays : findCol ("__" ++ col_date ++ "__days_wk") df = none) :
    (aggregate_weekly df col_date spec "Monday" b).1 =
      df ++ [("__" ++ col_date ++ "__wk_starts", dates.map week_start),
             ("__" ++ col_date ++ "__days_wk",
               (dates.map week_start).map (fun w => ((dates.map week_start).count w : Int)))] := by
  rw [aggregate_weekly_state df col_date spec b dates hdates hcheck]
  have hdays1 : findCol ("__" ++ col_date ++ "__days_wk")
      (setCol ("__" ++ col_date ++ "__wk_starts") (dates.map week_start) df) = none := by
    rw [findCol_setCol_ne _ _ _ _ (days_col_ne_wk_col col_date)]
    exact hdays
  rw [setCol_fresh _ _ _ hdays1, setCol_fresh _ _ _ hwk, List.append_assoc]
  rfl

/-- Witness for C10 as amended: on the full-week input the caller frame ends
as the input plus exactly the two helper columns. -/
theorem C10_mutation_adds_helper_columns_witness :
    (aggregate_weekly dfWeekFull "d" [("v", sumAgg)] "Monday" true).1 =
      dfWeekFull ++ [("__d__wk_starts", [4, 4, 4, 4, 4, 4, 4]),
                     ("__d__days_wk", [7, 7, 7, 7, 7, 7, 7])] :=
  C10_mutation_adds_helper_columns dfWeekFull "d" [("v", sumAgg)] true
    [4, 5, 6, 7, 8, 9, 10] (by decide) (by decide) (by decide) (by decide)

/-- C9: sanitise_header is atomic on error: whenever the sanitised column
names collide, it raises ValueError with the source message and the caller
dataframe keeps exactly its original column names, because the new names are
assigned only after the duplicate check passes. -/
theorem C9_sanitise_atomic_on_error (cols : List (List Nat))
    (h : (cols.map sanitiseName).dedup.length < (cols.map sanitiseName).length) :
    sanitise_header cols =
      (cols, Except.error (PyErr.valueError "columns with same name found.")) := by
  simp only [sanitise_header]
  rw [if_pos h]

/-- Witness for C9: the column names A-space-b (codepoints 65 32 98) and
a-underscore-b (97 95 98) both sanitise to a_b, so the call errors and the
columns are untouched. -/
theorem C9_sanitise_atomic_on_error_witness :
    sanitise_header [[65, 32, 98], [97, 95, 98]] =
      ([[65, 32, 98], [97, 95, 98]],
        Except.error (PyErr.valueError "columns with same name found.")) :=
  C9_sanitise_atomic_on_error [[65, 32, 98], [97, 95, 98]] (by decide)

/-- C6: header sanitisation is idempotent: if sanitise_header succeeds on a
dataframe, producing column names cols', then running it again on cols'
succeeds and leaves the column names unchanged. -/
theorem C6_sanitise_header_idem (cols cols' : List (List Nat))
    (h : sanitise_header cols = (cols', Except.ok ())) :
    sanitise_header cols' = (cols', Except.ok ()) := by
  simp only [sanitise_header] at h
  split at h
  · simp at h
  case isFalse hnodup =>
    rw [Prod.mk.injEq] at h
    obtain ⟨hcols, _⟩ := h
    have hfix : cols'.map sanitiseName = cols' := by
      rw [← hcols, List.map_map]
      exact map_congr_mem cols _ _ (fun a _ => sanitiseName_idem a)
    rw [← hcols] at hfix
    simp only [sanitise_header]
    rw [hcols] at hfix
    rw [hfix]
    rw [hcols] at hnodup
    rw [if_neg hnodup]

/-- Witness for C6: sanitising the docstring example columns Impr.--A. and
price-[dollar] (as codepoint lists) gives impr_a and price, and sanitising
again is the identity. -/
theorem C6_sanitise_header_idem_witness :
    sanitise_header [[105, 109, 112, 114, 95, 97], [112, 114, 105, 99, 101]] =
      ([[105, 109, 112, 114, 95, 97], [112, 114, 105, 99, 101]], Except.ok ()) :=
  C6_sanitise_header_idem
    [[73, 109, 112, 114, 46, 32, 32, 65, 46], [112, 114, 105, 99, 101, 32, 91, 36, 93]]
    [[105, 109, 112, 114, 95, 97], [112, 114, 105, 99, 101]] (by decide)

/-! ## power_analysis.select_candidate_regions

Source: src/studies/demo/power_analysis.py, lines 23-206.  The input
dataframe enters the combination search only through its per-region column
sums (power_analysis.py:106), so it is modelled directly as the list of
(region, column sum) pairs, with exact rationals for the Python floats.
The statistical fields of each output row (the external causalinf call and
the mean/std of the aggregated series) do not affect which combinations are
tried, filtered or emitted, and are not modelled; each output row keeps the
fields the enumeration itself computes: the region tuple and its aggregate
size fraction. -/

/-- One output row of the search: the region combination and its aggregate
size fraction (power_analysis.py:182). -/
structure CandRow where
  regions : List String
  regions_size : Rat
deriving DecidableEq

/-- The loop state of select_candidate_regions: the counter of combinations
tried (power_analysis.py:152), the combinations tried in order, and the
accumulated output rows (the data list of power_analysis.py:135). -/
structure SearchState where
  counter : Nat
  tried : List (List String)
  data : List CandRow
deriving DecidableEq

/-- itertools.combinations order: subsets of size k of a list, each subset
in list order, subsets ordered lexicographically by position. -/
def combinations {α : Type} : Nat → List α → List (List α)
  | 0, _ => [[]]
  | _ + 1, [] => []
  | k + 1, x :: xs => (combinations k xs).map (fun c => x :: c) ++ combinations (k + 1) xs

/-- The column sum of one region, 0 if the region is not a column of df
(pandas filter drops missing index entries). -/
def lookupSum (df : List (String × Rat)) (r : String) : Rat :=
  match df.find? (fun p => p.1 == r) with
  | some p => p.2
  | none => 0

/-- The total of all column sums of df. -/
def totalSum (df : List (String × Rat)) : Rat :=
  (df.map Prod.snd).foldr (fun a b => a + b) 0

/-- df_regions_size of power_analysis.py:106-108: each column sum as a
fraction of the whole-market total (all columns, not only candidates). -/
def size_frac (df : List (String × Rat)) (r : String) : Rat :=
  lookupSum df r / totalSum df

/-- regions_size of power_analysis.py:156: the summed size fraction of the
regions of a combination. -/
def regions_size_of (df : List (String × Rat)) (regions : List String) : Rat :=
  (regions.map (size_frac df)).foldr (fun a b => a + b) 0

/-- The size-bounds filter of power_analysis.py:157-160: with bounds
(lo, hi), a combination is skipped when its size is at least hi or at most
lo; without bounds nothing is skipped. -/
def size_filter (size_bounds_frac : Option (Rat × Rat)) (sz : Rat) : Bool :=
  match size_bounds_frac with
  | some (lo, hi) => decide (sz ≥ hi) || decide (sz ≤ lo)
  | none => false

/-- The inner for-loop of power_analysis.py:149-194 over the combinations of
one group size.  Each combination increments the counter; a combination
caught by the size filter is skipped with continue, which also skips the
budget check at lines 191-194; a surviving combination is appended to the
output and then the loop stops (returning true) once the counter has reached
max_combinations. -/
def inner_enum (df : List (String × Rat)) (bounds : Option (Rat × Rat))
    (max_combinations : Nat) :
    List (List String) → SearchState → SearchState × Bool
  | [], st => (st, false)
  | regions :: rest, st =>
    let st1 : SearchState := ⟨st.counter + 1, st.tried ++ [regions], st.data⟩
    let sz := regions_size_of df regions
    if size_filter bounds sz then
      inner_enum df bounds max_combinations rest st1
    else
      let st2 : SearchState := ⟨st1.counter, st1.tried, st1.data ++ [⟨regions, sz⟩]⟩
      if max_combinations ≤ st2.counter then (st2, true)
      else inner_enum df bounds max_combinations rest st2

/-- The outer while-loop of power_analysis.py:137-194.  fuel counts the
remaining group sizes (max_group_size minus regions_number), so the loop
runs for group sizes regions_number+1 .. max_group_size; at the top of each
iteration the budget is checked (line 142), and a true flag from the inner
loop terminates the whole search (the sentinel assignment at line 144/193).
-/
def outer_enum (df : List (String × Rat)) (bounds : Option (Rat × Rat))
    (cands : List String) (max_combinations : Nat) :
    Nat → Nat → SearchState → SearchState
  | 0, _, st => st
  | fuel + 1, regions_number, st =>
    if max_combinations ≤ st.counter then st
    else
      let pr := inner_enum df bounds max_combinations
        (combinations (regions_number + 1) cands) st
      if pr.2 then pr.1
      else outer_enum df bounds cands max_combinations fuel (regions_number + 1) pr.1

/-- Model of select_candidate_regions (power_analysis.py:23-206).  The
validation of lines 75-85 runs first, in source order, and raises ValueError
before any enumeration; then the search of lines 135-196 runs.  alpha,
power, n_obs and difference_percent are scalars here, so the parameter
product of lines 93-99 has exactly one element and each surviving
combination contributes one output row.  The profile computation
(power_analysis.py:114-133 and 162-170) joins per-region demographic columns
and does not affect which rows are emitted, so it is not modelled. -/
def select_candidate_regions (df : List (String × Rat))
    (candidate_regions_set : List String)
    (max_combinations max_group_size : Nat) (alpha : Rat)
    (power difference_percent : Option Rat)
    (size_bounds_frac : Option (Rat × Rat)) : Except PyErr SearchState :=
  if difference_percent.isNone ∧ power.isNone then
    Except.error (PyErr.valueError
      "One between difference_percent and power must be passed as an input.")
  else if difference_percent.isSome ∧ power.isSome then
    Except.error (PyErr.valueError
      "Only one between difference_percent and power must be passed as an input.")
  else if alpha ≤ 0 ∨ 1 ≤ alpha then
    Except.error (PyErr.valueError "alpha must be in (0,1)")
  else
    match size_bounds_frac with
    | some (lo, hi) =>
      if lo ≥ hi then
        Except.error (PyErr.valueError
          "size_bounds_frac first element must be smaller than the second.")
      else
        Except.ok (outer_enum df (some (lo, hi)) candidate_regions_set
          max_combinations max_group_size 0 ⟨0, [], []⟩)
    | none =>
      Except.ok (outer_enum df none candidate_regions_set
        max_combinations max_group_size 0 ⟨0, [], []⟩)

unseal Rat.add Rat.mul Rat.inv in
/-- C1 evidence (the budget can be exceeded): with max_combinations = 1,
candidate order a then b, and size bounds (3/10, 9/10) that filter out a
(size 1/10), the search tries 2 combinations and appends the second to the
output, because the continue at power_analysis.py:160 skips the budget check
at lines 191-194.  The function docstring says max_combinations is the
maximum number of combinations tried. -/
theorem C1_budget_skipped_on_filtered_combination :
    select_candidate_regions [("a", 1), ("b", 5), ("c", 4)] ["a", "b"] 1 1
      (mkRat 1 2) (some (mkRat 4 5)) none (some (mkRat 3 10, mkRat 9 10)) =
    Except.ok ⟨2, [["a"], ["b"]], [⟨["b"], mkRat 1 2⟩]⟩ := by
  decide

/-- Output rows of the inner loop beyond those already in the state come
from combinations that pass the size filter. -/
theorem inner_enum_data_mem (df : List (String × Rat)) (bounds : Option (Rat × Rat))
    (mc : Nat) :
    ∀ (l : List (List String)) (st : SearchState) (r : CandRow),
      r ∈ ((inner_enum df bounds mc l st).1).data →
      r ∈ st.data ∨ size_filter bounds r.regions_size = false := by
  intro l
  induction l with
  | nil =>
    intro st r hr
    exact Or.inl hr
  | cons regions rest ih =>
    intro st r hr
    simp only [inner_enum] at hr
    split at hr
    · rcases ih _ r hr with h | h
      · exact Or.inl h
      · exact Or.inr h
    case isFalse hf =>
      rw [Bool.not_eq_true] at hf
      split at hr
      · rcases List.mem_append.mp hr with h | h
        · exact Or.inl h
        · have h2 := List.mem_singleton.mp h
          right
          rw [h2]
          exact hf
      · rcases ih _ r hr with h | h
        · rcases List.mem_append.mp h with h | h
          · exact Or.inl h
          · have h2 := List.mem_singleton.mp h
            right
            rw [h2]
            exact hf
        · exact Or.inr h

/-- Output rows of the whole search beyond those already in the state come
from combinations that pass the size filter. -/
theorem outer_enum_data_mem (df : List (String × Rat)) (bounds : Option (Rat × Rat))
    (cands : List String) (mc : Nat) :
    ∀ (fuel rn : Nat) (st : SearchState) (r : CandRow),
      r ∈ (outer_enum df bounds cands mc fuel rn st).data →
      r ∈ st.data ∨ size_filter bounds r.regions_size = false := by
  intro fuel
  induction fuel with
  | zero =>
    intro rn st r hr
    exact Or.inl hr
  | succ fuel ih =>
    intro rn st r hr
    simp only [outer_enum] at hr
    split at hr
    · exact Or.inl hr
    · split at hr
      · exact inner_enum_data_mem df bounds mc _ st r hr
      · rcases ih _ _ r hr with h | h
        · exact inner_enum_data_mem df bounds mc _ st r h
        · exact Or.inr h

/-- C2: when size_bounds_frac = (lo, hi) is provided and the call returns,
every row of the returned data has its aggregate size fraction strictly
inside the bounds.  In particular a combination appears in the output only
if its size does not fall outside the bounds, and every enumerated
combination whose size falls outside the bounds contributes no output rows
(the code filters the closed boundary as well). -/
theorem C2_size_bounds_filter (df : List (String × Rat)) (cands : List String)
    (mc ms : Nat) (alpha : Rat) (power dp : Option Rat) (lo hi : Rat)
    (st : SearchState)
    (h : select_candidate_regions df cands mc ms alpha power dp (some (lo, hi)) =
      Except.ok st) :
    st.data.all
      (fun r => decide (lo < r.regions_size) && decide (r.regions_size < hi)) = true := by
  simp only [select_candidate_regions] at h
  split at h
  · simp at h
  split at h
  · simp at h
  split at h
  · simp at h
  split at h
  · simp at h
  rw [Except.ok.injEq] at h
  subst h
  rw [List.all_eq_true]
  intro r hr
  rcases outer_enum_data_mem df (some (lo, hi)) cands mc ms 0 ⟨0, [], []⟩ r hr with h | h
  · cases h
  · simp only [size_filter] at h
    rw [Bool.or_eq_false_iff] at h
    obtain ⟨h1, h2⟩ := h
    rw [decide_eq_false_iff_not] at h1 h2
    rw [Bool.and_eq_true_iff, decide_eq_true_eq, decide_eq_true_eq]
    exact ⟨lt_of_not_le h2, lt_of_not_le h1⟩

unseal Rat.add Rat.mul Rat.inv in
/-- Witness for C2: in the concrete run of the two candidate regions with
bounds (3/10, 9/10) and budget 10, only region b (size 1/2) survives, and
its size lies strictly inside the bounds. -/
theorem C2_size_bounds_filter_witness :
    (SearchState.mk 2 [["a"], ["b"]] [⟨["b"], mkRat 1 2⟩]).data.all
      (fun r => decide (mkRat 3 10 < r.regions_size) &&
        decide (r.regions_size < mkRat 9 10)) = true :=
  C2_size_bounds_filter [("a", 1), ("b", 5), ("c", 4)] ["a", "b"] 10 1
    (mkRat 1 2) (some (mkRat 4 5)) none (mkRat 3 10) (mkRat 9 10)
    ⟨2, [["a"], ["b"]], [⟨["b"], mkRat 1 2⟩]⟩
    (by decide)

/-- Discriminator for a raised ValueError. -/
def raisesValueError : Except PyErr SearchState → Bool
  | Except.error (PyErr.valueError _) => true
  | _ => false

/-- C4: if both power and difference_percent are provided, or neither is,
select_candidate_regions raises a ValueError; in the model the validation
block (power_analysis.py:75-78) precedes the enumeration, so the error is
raised synchronously before any combination is examined. -/
theorem C4_power_mde_validation (df : List (String × Rat)) (cands : List String)
    (mc ms : Nat) (alpha : Rat) (bounds : Option (Rat × Rat))
    (power dp : Option Rat)
    (h : (power = none ∧ dp = none) ∨ (power ≠ none ∧ dp ≠ none)) :
    raisesValueError (select_candidate_regions df cands mc ms alpha power dp bounds) =
      true := by
  rcases h with ⟨hp, hd⟩ | ⟨hp, hd⟩
  · subst hp
    subst hd
    simp [select_candidate_regions, raisesValueError]
  · rcases Option.ne_none_iff_exists.mp hp with ⟨x, hx⟩
    rcases Option.ne_none_iff_exists.mp hd with ⟨y, hy⟩
    subst hx
    subst hy
    simp [select_candidate_regions, raisesValueError]

/-- Witness for C4 at a concrete both-omitted call. -/
theorem C4_power_mde_validation_witness :
    raisesValueError (select_candidate_regions [] [] 1 1 (mkRat 1 2) none none none) =
      true :=
  C4_power_mde_validation [] [] 1 1 (mkRat 1 2) none none none (Or.inl ⟨rfl, rfl⟩)

/-! ## queries/lib_io.py: YAML/SQL directory loading

Source: src/studies/demo/queries/lib_io.py.  The directory tree is modelled
as FSTree values; a file carries its basename, whether reading/parsing it
succeeds, and its (parsed) content; loaded contents are Item values.  The
extension checks follow the enums YAMLExtensions and SQLExtensions: the
YAML check tests membership of the string or of its pathlib suffix without
the dot in the tuple (yml, yaml); the SQL check tests Python substring
membership of the string, or of its suffix without the dot, in the string
sql, because VALIDext is the plain string sql, so the in operator of
_missing_ is a substring test there. -/

/-- A value loaded from a file: a SQL string, a YAML mapping, or a YAML
null-like value.  Matches what bool(new_item) at lib_io.py:133 inspects. -/
inductive Item where
  | strI (s : String)
  | dictI (entries : List (String × Item))
  | noneI

/-- Python truthiness of a loaded item, as used at lib_io.py:133. -/
def truthy : Item → Bool
  | Item.strI s => !(s == "")
  | Item.dictI es => !es.isEmpty
  | Item.noneI => false

/-- A directory entry: a file (basename, whether its read/parse succeeds,
parsed content) or a directory with its basename and entries. -/
inductive FSTree where
  | file (nm : String) (loads : Bool) (content : Item)
  | dir (nm : String) (entries : List FSTree)

/-- Index of the last dot in a character list, if any. -/
def lastDotIdx : List Char → Option Nat
  | [] => none
  | c :: cs =>
    match lastDotIdx cs with
    | some i => some (i + 1)
    | none => if c = '.' then some 0 else none

/-- pathlib suffix of a basename: from the last dot, provided the dot is
neither the first nor the last character (the rule of pathlib PurePath). -/
def pySuffix (name : String) : String :=
  match lastDotIdx name.data with
  | some i =>
    if 0 < i ∧ i + 1 < name.data.length then String.mk (name.data.drop i) else ""
  | none => ""

/-- pathlib stem of a basename: the name without its suffix. -/
def pyStem (name : String) : String :=
  match lastDotIdx name.data with
  | some i =>
    if 0 < i ∧ i + 1 < name.data.length then String.mk (name.data.take i) else name
  | none => name

/-- The pathlib suffix with its leading dot removed, i.e. suffix[1:]. -/
def extNoDot (x : String) : String := String.mk ((pySuffix x).data.drop 1)

/-- Whether p is a list-prefix of s. -/
def isPre : List Char → List Char → Bool
  | [], _ => true
  | _ :: _, [] => false
  | a :: as, b :: bs => a == b && isPre as bs

/-- Python substring membership p in s for strings as character lists; the
empty string is a substring of everything. -/
def isSub (p : List Char) : List Char → Bool
  | [] => p.isEmpty
  | c :: rest => isPre p (c :: rest) || isSub p rest

/-- YAMLExtensions validity of a string (lib_io.py:10-25): equality with yml
or yaml, or pathlib suffix without the dot equal to yml or yaml. -/
def yaml_valid (x : String) : Bool :=
  x == "yml" || x == "yaml" || extNoDot x == "yml" || extNoDot x == "yaml"

/-- SQLExtensions validity of a string (lib_io.py:28-43): because VALIDext
is the plain string sql, the in operator is a substring test: x is valid if
x is a substring of sql, or its suffix without the dot is a substring of
sql.  In particular every string without a usable suffix is valid, since
the empty suffix is a substring of sql. -/
def sql_valid (x : String) : Bool :=
  isSub x.data "sql".data || isSub (extNoDot x).data "sql".data

/-- The reader selected by the extension dispatch of read_from_dir. -/
inductive Mode where
  | yamlMode
  | sqlMode
  | unboundMode
deriving DecidableEq

/-- The extension dispatch of read_from_dir (lib_io.py:95-103).  When the
extension is neither YAML-valid nor SQL-valid, line 103 constructs
ValueError(...) but does not raise it, so execution continues with the local
names CURRENTextension and read_file unbound; unboundMode models that
state. -/
def dispatch_extension (extension : String) : Mode :=
  if yaml_valid extension then Mode.yamlMode
  else if sql_valid extension then Mode.sqlMode
  else Mode.unboundMode

/-- CURRENTextension(f_path) for the elif at lib_io.py:119, applied to the
absolute path of an entry.  An absolute path starts with a slash and
contains a slash, so it can never equal yml or yaml and can never be a
substring of sql; only the suffix tests of the basename remain.  In
unboundMode the name CURRENTextension is unbound, which is handled by the
caller. -/
def path_matches (mode : Mode) (name : String) : Bool :=
  match mode with
  | Mode.yamlMode => extNoDot name == "yml" || extNoDot name == "yaml"
  | Mode.sqlMode => isSub (extNoDot name).data "sql".data
  | Mode.unboundMode => false

/-- One loop iteration of read_from_dir (lib_io.py:109-134) for an entry
that is not entered as a directory: a file, or a directory whose depth
budget is exhausted (which then falls into the elif and, when its name
matches, is opened as a file, raising IsADirectoryError).  fileInfo is
none for a directory and (loads, content) for a file.  In unboundMode,
evaluating CURRENTextension at the elif raises UnboundLocalError.  The
result is (entry to store if truthy, names appended to failed_yaml). -/
def read_entry_flat (mode : Mode) (on_error_continue : Bool) (name : String)
    (fileInfo : Option (Bool × Item)) :
    Except PyErr (Option (String × Item) × List String) :=
  match mode with
  | Mode.unboundMode => Except.error PyErr.unboundLocalError
  | _ =>
    if path_matches mode name then
      match fileInfo with
      | none =>
        if on_error_continue then Except.ok (none, [name])
        else Except.error PyErr.isADirectoryError
      | some (loads, content) =>
        if loads then
          Except.ok (if truthy content then some (pyStem name, content) else none, [])
        else if on_error_continue then Except.ok (none, [name])
        else Except.error PyErr.loadError
    else Except.ok (none, [])

def findItem (k : String) : List (String × Item) → Option Item
  | [] => none
  | (k2, v) :: rest => if k2 = k then some v else findItem k rest

def eraseKey (k : String) : List (String × Item) → List (String × Item)
  | [] => []
  | (k2, v) :: rest => if k2 = k then rest else (k2, v) :: eraseKey k rest

/-- Python dict assignment order: collection[k] = v executed before the
insertions of col keeps k at its first-insertion position but takes the
latest value for k. -/
def dictInsert (stored : Option (String × Item)) (col : List (String × Item)) :
    List (String × Item) :=
  match stored with
  | none => col
  | some (k, v) =>
    match findItem k col with
    | some v2 => (k, v2) :: eraseKey k col
    | none => (k, v) :: col

mutual
/-- Processing of a single directory entry by read_from_dir: a directory is
entered recursively only when the remaining depth budget is positive
(lib_io.py:113-116), with the budget decremented; the recursive collection
is stored under the directory stem when non-empty; everything else goes
through the flat (elif/else) path. -/
def readTree (mode : Mode) (on_error_continue : Bool) (max_depth : Nat) :
    FSTree → Except PyErr (Option (String × Item) × List String)
  | FSTree.file nm loads content =>
    read_entry_flat mode on_error_continue nm (some (loads, content))
  | FSTree.dir nm entries =>
    match max_depth with
    | 0 => read_entry_flat mode on_error_continue nm none
    | d + 1 =>
      match readList mode on_error_continue d entries with
      | Except.error e => Except.error e
      | Except.ok (col, failed_here) =>
        Except.ok
          (if !col.isEmpty then some (pyStem nm, Item.dictI col) else none, failed_here)

/-- The iteration of read_from_dir over the entries of one directory: the
collection dict and the failed list grow in loop order, and a raised
exception aborts the whole call. -/
def readList (mode : Mode) (on_error_continue : Bool) (max_depth : Nat) :
    List FSTree → Except PyErr (List (String × Item) × List String)
  | [] => Except.ok ([], [])
  | e :: rest =>
    match readTree mode on_error_continue max_depth e with
    | Except.error er => Except.error er
    | Except.ok (stored, failed_here) =>
      match readList mode on_error_continue max_depth rest with
      | Except.error er => Except.error er
      | Except.ok (col, failed_rest) =>
        Except.ok (dictInsert stored col, failed_here ++ failed_rest)
end

/-- Model of read_from_dir (lib_io.py:69-136): dispatch on the extension,
then iterate over the entries of path_to_dir with the given depth budget. -/
def read_from_dir (path_entries : List FSTree) (extension : String)
    (on_error_continue : Bool) (max_depth : Nat) :
    Except PyErr (List (String × Item) × List String) :=
  readList (dispatch_extension extension) on_error_continue max_depth path_entries

mutual
/-- Truncation of a tree at the depth budget d: a directory seen with
budget 0 keeps its name but loses its entries; deeper levels are truncated
with the decremented budget, mirroring how read_from_dir descends. -/
def pruneTree : Nat → FSTree → FSTree
  | _, FSTree.file nm loads content => FSTree.file nm loads content
  | 0, FSTree.dir nm _ => FSTree.dir nm []
  | d + 1, FSTree.dir nm entries => FSTree.dir nm (pruneList d entries)

/-- Truncation of a list of entries at the depth budget d. -/
def pruneList : Nat → List FSTree → List FSTree
  | _, [] => []
  | d, e :: rest => pruneTree d e :: pruneList d rest
end

theorem pruneTree_file (d : Nat) (nm : String) (loads : Bool) (content : Item) :
    pruneTree d (FSTree.file nm loads content) = FSTree.file nm loads content := by
  cases d <;> simp [pruneTree]

theorem pruneTree_dir_zero (nm : String) (entries : List FSTree) :
    pruneTree 0 (FSTree.dir nm entries) = FSTree.dir nm [] := by
  simp [pruneTree]

theorem pruneTree_dir_succ (d : Nat) (nm : String) (entries : List FSTree) :
    pruneTree (d + 1) (FSTree.dir nm entries) = FSTree.dir nm (pruneList d entries) := by
  simp [pruneTree]

theorem pruneList_nil (d : Nat) : pruneList d [] = [] := by
  simp [pruneList]

theorem pruneList_cons (d : Nat) (e : FSTree) (rest : List FSTree) :
    pruneList d (e :: rest) = pruneTree d e :: pruneList d rest := by
  simp [pruneList]

theorem readTree_dir_zero (mode : Mode) (oc : Bool) (nm : String)
    (entries : List FSTree) :
    readTree mode oc 0 (FSTree.dir nm entries) = read_entry_flat mode oc nm none := by
  simp [readTree]

theorem readTree_dir_succ (mode : Mode) (oc : Bool) (d : Nat) (nm : String)
    (entries : List FSTree) :
    readTree mode oc (d + 1) (FSTree.dir nm entries) =
      match readList mode oc d entries with
      | Except.error e => Except.error e
      | Except.ok (col, failed_here) =>
        Except.ok
          (if !col.isEmpty then some (pyStem nm, Item.dictI col) else none,
            failed_here) := by
  simp [readTree]

theorem readList_cons (mode : Mode) (oc : Bool) (d : Nat) (e : FSTree)
    (rest : List FSTree) :
    readList mode oc d (e :: rest) =
      match readTree mode oc d e with
      | Except.error er => Except.error er
      | Except.ok (stored, failed_here) =>
        match readList mode oc d rest with
        | Except.error er => Except.error er
        | Except.ok (col, failed_rest) =>
          Except.ok (dictInsert stored col, failed_here ++ failed_rest) := by
  simp [readList]

/-- Reading an entry or an entry list is unchanged by truncating the tree
at the depth budget, by strong induction on the tree size: entries below
the budget are never examined. -/
theorem prune_read_aux (mode : Mode) (oc : Bool) :
    ∀ n : Nat,
      (∀ (d : Nat) (t : FSTree), sizeOf t < n →
        readTree mode oc d (pruneTree d t) = readTree mode oc d t) ∧
      (∀ (d : Nat) (es : List FSTree), sizeOf es < n →
        readList mode oc d (pruneList d es) = readList mode oc d es) := by
  intro n
  induction n with
  | zero =>
    exact ⟨fun d t ht => absurd ht (Nat.not_lt_zero _),
      fun d es hes => absurd hes (Nat.not_lt_zero _)⟩
  | succ n ih =>
    constructor
    · intro d t ht
      cases t with
      | file nm loads content => rw [pruneTree_file]
      | dir nm entries =>
        cases d with
        | zero => rw [pruneTree_dir_zero, readTree_dir_zero, readTree_dir_zero]
        | succ d =>
          rw [pruneTree_dir_succ, readTree_dir_succ, readTree_dir_succ]
          rw [ih.2 d entries (by simp at ht; omega)]
    · intro d es hes
      cases es with
      | nil => rw [pruneList_nil]
      | cons e rest =>
        rw [pruneList_cons, readList_cons, readList_cons]
        rw [ih.1 d e (by simp at hes; omega),
          ih.2 d rest (by simp at hes; omega)]

/-- Reading a list of entries is unchanged by truncating at the depth
budget. -/
theorem readList_prune (mode : Mode) (oc : Bool) (d : Nat) (es : List FSTree) :
    readList mode oc d (pruneList d es) = readList mode oc d es :=
  (prune_read_aux mode oc (sizeOf es + 1)).2 d es (Nat.lt_succ_self _)

/-- C7: read_from_dir respects the configurable depth limit: with
max_depth = d, reading a directory tree equals reading the tree truncated
at the budget (directories reached with budget 0 are never descended into),
so files and directories nested deeper than d levels below path_to_dir
contribute nothing to the returned collection, while files in shallower
subdirectories are loaded recursively. -/
theorem C7_depth_limit (extension : String) (on_error_continue : Bool)
    (max_depth : Nat) (entries : List FSTree) :
    read_from_dir (pruneList max_depth entries) extension on_error_continue max_depth =
      read_from_dir entries extension on_error_continue max_depth :=
  readList_prune (dispatch_extension extension) on_error_continue max_depth entries

/-- C3 evidence: an unsupported extension does not raise ValueError.  The
extension foo.txt is neither YAML-valid nor SQL-valid, so it reaches the
fallback at lib_io.py:103 where the ValueError is constructed but never
raised, and on an empty directory the call returns normally; the dot-less
invalid extension txt never even reaches the fallback, because the empty
pathlib suffix makes it a substring of sql and the dispatch treats it as
SQL. -/
theorem C3_unsupported_extension_not_rejected :
    dispatch_extension "foo.txt" = Mode.unboundMode ∧
    read_from_dir [] "foo.txt" false 3 = Except.ok ([], []) ∧
    dispatch_extension "txt" = Mode.sqlMode := by
  refine ⟨by decide, ?_, by decide⟩
  rfl
